import Mathlib

/-!
Shallow embedding of the Sandbox repository (job lifecycle API and
sandbox manager) and proofs about the properties claimed of it.

Source files embedded here:
* `src/sandbox/sandboxManager.js` — `formatOutput`, `wrapUserCode`,
  `setupNetworkScenario`, `cleanupNetworkScenario`, `runJob`;
* `src/unnamed/part_000` (the Express job routes) — job status lifecycle,
  the cancel route and the periodic sweep.

Captured program text is modelled as `List Char`; JavaScript objects are
modelled as Lean structures; the effectful parts of `runJob` are modelled
as a trace of resource events produced alongside the returned value.
-/

/-! ## Output sanitizer: `formatOutput` (sandboxManager.js lines 16-55) -/

/-- The three control characters removed by
`.replace(/\u0001|\u0002|\u0000/g, '')`. -/
def isCtrlChar (c : Char) : Bool :=
  c = Char.ofNat 0 || c = Char.ofNat 1 || c = Char.ofNat 2

/-- Step 1a of `formatOutput`: global removal of single characters is a
filter. -/
def removeCtrl (l : List Char) : List Char :=
  l.filter (fun c => !isCtrlChar c)

/-- The literal part of the pip-warning regex
`/WARNING: Running pip as the \x27root\x27 user.*\n/g`. -/
def pipPrefix : List Char :=
  "WARNING: Running pip as the \x27root\x27 user".data

/-- Characters that JavaScript's `.` does not match (line terminators);
also the terminators that delimit lines for the `m` regex flag. -/
def jsDotExcl (c : Char) : Bool :=
  c = '\n' || c = '\r' || c = Char.ofNat 0x2028 || c = Char.ofNat 0x2029

/-- Scan for the `.*\n` part of the pip-warning regex: consume characters
up to and including the first `'\n'`; fail if another line terminator is
met first (JavaScript's `.` matches neither `\n` nor `\r` nor the Unicode
line/paragraph separators). Returns the remainder after the `'\n'`. -/
def matchToNl : List Char → Option (List Char)
  | [] => none
  | c :: cs =>
    if c = '\n' then some cs
    else if jsDotExcl c then none
    else matchToNl cs

theorem matchToNl_length :
    ∀ l r, matchToNl l = some r → r.length < l.length := by
  intro l
  induction l with
  | nil => intro r h; simp [matchToNl] at h
  | cons c cs ih =>
    intro r h
    simp only [matchToNl] at h
    split at h
    · cases h; simp
    · split at h
      · cases h
      · have := ih r h
        simp
        omega

/-- Step 1b of `formatOutput`: one left-to-right pass of
`.replace(/WARNING: Running pip as the \x27root\x27 user.*\n/g, '')`:
at each position, either a whole match (the literal prefix, the rest of
the line, the newline) is removed and scanning resumes after it, or the
scan advances one character. The `fuel` parameter only makes the
recursion structural (the kernel can then evaluate it); every recursive
call strictly shrinks the list, so fuel = initial length never runs
out and the zero-fuel branch is unreachable. -/
def stripPipGo (fuel : Nat) (l : List Char) : List Char :=
  match fuel, l with
  | _, [] => []
  | 0, l => l
  | fuel + 1, c :: cs =>
    if pipPrefix.isPrefixOf (c :: cs) then
      match matchToNl (List.drop pipPrefix.length (c :: cs)) with
      | some rest => stripPipGo fuel rest
      | none => c :: stripPipGo fuel cs
    else c :: stripPipGo fuel cs

/-- The pip-warning strip itself. -/
def stripPip (l : List Char) : List Char := stripPipGo l.length l

/-- The structured-log prefix recognized by `/INFO:root:.*$/gm`. -/
def infoPrefix : List Char := "INFO:root:".data

/-- Split into lines at every JavaScript line terminator (the lines over
which the `m` flag matches `$`). -/
def splitLines : List Char → List (List Char)
  | [] => [[]]
  | c :: cs =>
    if jsDotExcl c then [] :: splitLines cs
    else
      match splitLines cs with
      | [] => [[c]]
      | l :: ls => (c :: l) :: ls

/-- A match of `/INFO:root:.*$/m` inside one line: the suffix of the line
starting at the first occurrence of `INFO:root:` (extending to the end of
the line), if the line contains the prefix at all. -/
def lineMatch : List Char → Option (List Char)
  | [] => if infoPrefix.isPrefixOf ([] : List Char) then some [] else none
  | c :: cs =>
    if infoPrefix.isPrefixOf (c :: cs) then some (c :: cs)
    else lineMatch cs

/-- `.join('\n')`. -/
def joinNl : List (List Char) → List Char
  | [] => []
  | [l] => l
  | l :: ls => l ++ '\n' :: joinNl ls

/-- Step 2 of `formatOutput`: `formattedOutput.match(/INFO:root:.*$/gm)`,
and if any line matched, replace the whole text by those matches with the
first occurrence of `INFO:root:` removed from each (the match begins with
it, so this drops the leading prefix), joined with `'\n'`. -/
def collapseLogs (l : List Char) : List Char :=
  if (splitLines l).filterMap lineMatch = [] then l
  else joinNl (((splitLines l).filterMap lineMatch).map
    (fun line => line.drop infoPrefix.length))

/-- The timeout sentinel appended on the kill path of `runJob`. -/
def timeoutMark : List Char := "[Timeout]".data

/-- The human-readable notice prepended when the sentinel is present. -/
def timeoutNotice : List Char := "Execution timed out after 10 seconds.\n".data

/-- Substring test (`String.prototype.includes` over our character
lists). -/
def containsSub (p : List Char) : List Char → Bool
  | [] => p.isPrefixOf ([] : List Char)
  | c :: cs => p.isPrefixOf (c :: cs) || containsSub p cs

/-- Step 3 of `formatOutput`: prepend the timeout notice whenever the
text includes `[Timeout]`. -/
def addTimeoutNotice (l : List Char) : List Char :=
  if containsSub timeoutMark l then timeoutNotice ++ l else l

/-- The `"origin"` key looked for inside a truncated JSON fragment. -/
def originKey : List Char := "\"origin\"".data

/-- The fixed redacted replacement `\x7b "origin": "[IP address]" \x7d`. -/
def ipRepl : List Char := "\x7b \"origin\": \"[IP address]\" \x7d".data

/-- Step 4 of `formatOutput`: if the text has an opening brace but no
closing brace and the fragment from the first opening brace mentions the
`"origin"` key, replace the fragment by the fixed redacted object.
(The surrounding `try` in the source can never throw: none of the string
operations inside it do.) -/
def fixJson (l : List Char) : List Char :=
  if l.contains '\x7b' && !(l.contains '\x7d') then
    if containsSub originKey (l.dropWhile (fun c => c ≠ '\x7b')) then
      l.takeWhile (fun c => c ≠ '\x7b') ++ ipRepl
    else l
  else l

/-- The JavaScript whitespace set used by `String.prototype.trim`
(WhiteSpace plus LineTerminator code points). -/
def isJsSpace (c : Char) : Bool :=
  c = ' ' || c = '\t' || c = '\n' || c = '\r' ||
  c = Char.ofNat 0x0b || c = Char.ofNat 0x0c ||
  c = Char.ofNat 0xa0 || c = Char.ofNat 0x1680 ||
  (0x2000 ≤ c.toNat && c.toNat ≤ 0x200a) ||
  c = Char.ofNat 0x2028 || c = Char.ofNat 0x2029 ||
  c = Char.ofNat 0x202f || c = Char.ofNat 0x205f ||
  c = Char.ofNat 0x3000 || c = Char.ofNat 0xfeff

/-- Left half of `.trim()`. -/
def trimL (l : List Char) : List Char := l.dropWhile isJsSpace

/-- Right half of `.trim()`. -/
def trimR (l : List Char) : List Char := (l.reverse.dropWhile isJsSpace).reverse

/-- `.trim()`. -/
def jsTrim (l : List Char) : List Char := trimR (trimL l)

/-- `formatOutput` (sandboxManager.js lines 16-55): control-character and
pip-warning stripping, structured-log collapse, timeout-notice
prepending, truncated-JSON redaction, then trim. -/
def formatOutput (output : List Char) : List Char :=
  jsTrim (fixJson (addTimeoutNotice (collapseLogs (stripPip (removeCtrl output)))))

/-! ## Scenario injector: `wrapUserCode` (sandboxManager.js lines 58-103) -/

/-- The scenario configuration object. JavaScript truthiness of the
numeric fields is modelled by `≠ 0`; a missing or empty `upstream`
string is falsy. -/
structure Scenario where
  networkLatencyMs : Nat
  bandwidthKbps : Nat
  timeoutMs : Nat
  upstream : Option String
  artificialDelayMs : Nat
  simulateCrash : Bool
  simulateHighCpu : Bool
  simulateMemoryLeak : Bool
deriving DecidableEq

/-- The empty scenario object `\x7b\x7d`: every field absent/falsy. -/
def emptyScenario : Scenario := ⟨0, 0, 0, none, 0, false, false, false⟩

/-- Decimal rendering of the JavaScript number
`scenario.artificialDelayMs / 1000` interpolated into the python delay
fragment (exact for this denominator: JS prints the shortest decimal). -/
def renderDelaySeconds (ms : Nat) : String :=
  if ms % 1000 = 0 then toString (ms / 1000)
  else
    let frac := (Nat.toDigits 10 (1000 + ms % 1000)).drop 1
    toString (ms / 1000) ++ "." ++ String.mk ((frac.reverse.dropWhile (fun c => c = '0')).reverse)

def pyDelay (ms : Nat) : String :=
  "import time\nprint(\"Simulating artificial delay...\")\ntime.sleep(" ++
    renderDelaySeconds ms ++ ")\n"

def jsDelay (ms : Nat) : String :=
  "console.log(\"Simulating artificial delay...\");\nawait new Promise(r => setTimeout(r, " ++
    toString ms ++ "));\n"

def pyCrash : String := "\nimport sys\nsys.exit(1)  # Simulate crash"

def jsCrash : String := "\nprocess.exit(1); // Simulate crash"

def pyCpu : String :=
  "import threading\nimport time\ndef cpu_load():\n    while True:\n        pass\nthreading.Thread(target=cpu_load, daemon=True).start()\nprint(\"Simulating high CPU load...\")\n"

def jsCpu : String :=
  "console.log(\"Simulating high CPU load...\");\nfunction cpuLoad() \x7b while(true) \x7b\x7d \x7d\nsetTimeout(cpuLoad, 0);\n"

def pyLeak : String :=
  "print(\"Simulating memory leak...\")\n_leak = []\nfor _ in range(10**7):\n    _leak.append(\x27leak\x27)\n"

def jsLeak : String :=
  "console.log(\"Simulating memory leak...\");\nlet leak = [];\nfor(let i=0; i<1e7; i++) \x7b leak.push(\x27leak\x27); \x7d\n"

def pipInstallRequests : String :=
  "import os\nos.system(\x27pip install --quiet requests\x27)\n"

/-- The substring looked for by `code.includes(\x27import requests\x27)`. -/
def reqImport : List Char := "import requests".data

/-- `wrapUserCode(code, scenario, language)`: accumulates `pre` fragments
(artificial delay, high CPU, memory leak, requests bootstrap — in source
order) and `post` fragments (crash), then returns `pre + code + post`. -/
def wrapUserCode (code : String) (scenario : Scenario) (language : String) : String :=
  let pre := ""
  let post := ""
  let pre :=
    if scenario.artificialDelayMs ≠ 0 then
      if language = "python" then pre ++ pyDelay scenario.artificialDelayMs
      else if language = "javascript" ∨ language = "node" then
        pre ++ jsDelay scenario.artificialDelayMs
      else pre
    else pre
  let post :=
    if scenario.simulateCrash then
      if language = "python" then post ++ pyCrash
      else if language = "javascript" ∨ language = "node" then post ++ jsCrash
      else post
    else post
  let pre :=
    if scenario.simulateHighCpu then
      if language = "python" then pre ++ pyCpu
      else if language = "javascript" ∨ language = "node" then pre ++ jsCpu
      else pre
    else pre
  let pre :=
    if scenario.simulateMemoryLeak then
      if language = "python" then pre ++ pyLeak
      else if language = "javascript" ∨ language = "node" then pre ++ jsLeak
      else pre
    else pre
  let pre :=
    if language = "python" ∧ containsSub reqImport code.data = true then
      pre ++ pipInstallRequests
    else pre
  pre ++ code ++ post

/-- C5 (counterexample): with the empty scenario, python code that
mentions `import requests` is not returned unchanged — the dependency
bootstrap fragment is prepended unconditionally (sandboxManager.js
lines 97-100), so the injector is not the identity transform. -/
theorem wrapUserCode_empty_not_identity :
    wrapUserCode "import requests" emptyScenario "python" ≠ "import requests" := by
  decide

/-- C5 (amended): with no scenario flag set, the injector returns the
user code unchanged unless the language is python and the code contains
`import requests` (in which case the pip bootstrap is still prepended). -/
theorem wrapUserCode_emptyScenario_identity (code : String) (language : String)
    (h : ¬(language = "python" ∧ containsSub reqImport code.data = true)) :
    wrapUserCode code emptyScenario language = code := by
  unfold wrapUserCode emptyScenario
  simp only [ne_eq, not_true_eq_false, if_false, if_neg h]
  simp

/-- C5 witness. -/
theorem wrapUserCode_emptyScenario_identity_witness :
    wrapUserCode "print(1+1)" emptyScenario "python" = "print(1+1)" :=
  wrapUserCode_emptyScenario_identity "print(1+1)" "python" (by decide)

/-- C10: for any language other than python/javascript/node, every
fragment of the injector is skipped (each is guarded by a language
check), so the user code is returned unchanged for every scenario —
scenario flags are silently ignored, not rejected. -/
theorem wrapUserCode_unrecognized_language (code : String) (scenario : Scenario)
    (language : String) (h1 : language ≠ "python") (h2 : language ≠ "javascript")
    (h3 : language ≠ "node") :
    wrapUserCode code scenario language = code := by
  unfold wrapUserCode
  simp [h1, h2, h3]

/-- C10 witness: a ruby job with every scenario flag set is returned
unchanged. -/
theorem wrapUserCode_unrecognized_language_witness :
    wrapUserCode "puts 1" ⟨5, 6, 7, some "example.com:80", 8, true, true, true⟩ "ruby" =
      "puts 1" :=
  wrapUserCode_unrecognized_language "puts 1" _ "ruby" (by decide) (by decide) (by decide)

/-! ## Network fault controller and `runJob`
(sandboxManager.js lines 105-232)

The effectful pipeline is embedded as a function from the job plus an
environment (describing which external calls succeed and how the
container run ends) to the settled promise value together with the
ordered trace of resource events the code performs. -/

/-- The toxic kinds attached by `setupNetworkScenario`. -/
inductive ToxicType
  | latency
  | bandwidth
  | timeoutT
deriving DecidableEq

/-- Resource events performed by `runJob` and its helpers, in program
order. -/
inductive REvent
  | tmpCreate
  | tmpRemove
  | proxyDeleteAttempt (name : String)
  | proxyCreate (name : String) (listen : String) (upstream : String)
  | addToxic (t : ToxicType) (value : Nat)
  | proxyDelete (name : String)
  | containerCreate
  | containerStart
  | containerKill
deriving DecidableEq

/-- A job record as passed to `runJob` (the fields it reads). -/
structure Job where
  id : String
  language : String
  code : String
  scenario : Scenario
deriving DecidableEq

/-- Truthiness of `scenario.upstream` (a missing or empty string is
falsy in JavaScript). -/
def upstreamSet (s : Scenario) : Bool :=
  match s.upstream with
  | some u => u ≠ ""
  | none => false

/-- `scenario.upstream || \x27httpbin.org:80\x27`. -/
def upstreamOrDefault (s : Scenario) : String :=
  match s.upstream with
  | some u => if u = "" then "httpbin.org:80" else u
  | none => "httpbin.org:80"

/-- The proxy name `sandbox_proxy_$\x7bjobId\x7d`. -/
def proxyNameOf (jobId : String) : String := "sandbox_proxy_" ++ jobId

/-- `setupNetworkScenario(jobId, scenario)` (lines 105-142), as the
ordered list of calls it makes on success: the defensive delete of a
stale proxy, the proxy creation (fixed listen port 8666), then one
`addToxic` per requested toxic — latency, bandwidth, timeout, in source
order. Returns the events together with the handle
`\x7b proxyName, host, port \x7d`. -/
def setupNetworkScenario (jobId : String) (s : Scenario) :
    List REvent × String × String × Nat :=
  let proxyName := proxyNameOf jobId
  let listenPort := 8666
  let upstream := upstreamOrDefault s
  let evs :=
    [REvent.proxyDeleteAttempt proxyName,
     REvent.proxyCreate proxyName ("0.0.0.0:" ++ toString listenPort) upstream] ++
    (if s.networkLatencyMs ≠ 0 then [REvent.addToxic ToxicType.latency s.networkLatencyMs]
     else []) ++
    (if s.bandwidthKbps ≠ 0 then [REvent.addToxic ToxicType.bandwidth s.bandwidthKbps]
     else []) ++
    (if s.timeoutMs ≠ 0 then [REvent.addToxic ToxicType.timeoutT s.timeoutMs] else [])
  (evs, proxyName, "host.docker.internal", listenPort)

/-- `cleanupNetworkScenario(proxyName)` (lines 144-146): a delete whose
failure is swallowed by `try/catch`. -/
def cleanupNetworkScenario (proxyName : String) : List REvent :=
  [REvent.proxyDelete proxyName]

/-- The guard at lines 175-181: a network scenario is provisioned iff
any of the four network fields is truthy (the route layer guarantees
`job.scenario` itself is present). -/
def networkTriggered (s : Scenario) : Bool :=
  s.networkLatencyMs ≠ 0 || s.bandwidthKbps ≠ 0 || s.timeoutMs ≠ 0 || upstreamSet s

/-- The language dispatch at lines 158-167. -/
def supportedLanguage (language : String) : Bool :=
  language = "python" || language = "javascript" || language = "node"

/-- How the container run inside the executor promise ends:
`createFail` = any throw inside the `try` before the wait settles
(e.g. `docker.createContainer` rejecting); `natural` = the container
exits (with some exit code) before the 10 s ceiling; `timedOut` = the
ceiling fires first. `raw` is the captured stdout+stderr text. -/
inductive COutcome
  | createFail (msg : String)
  | natural (exitCode : Nat) (raw : List Char)
  | timedOut (raw : List Char)
deriving DecidableEq

/-- The behaviour of the external world during one `runJob` call. -/
structure ExecEnv where
  writeOk : Bool
  createProxyOk : Bool
  toxicsOk : Bool
  outcome : COutcome
deriving DecidableEq

/-- The value a settled `runJob` promise carries. -/
structure RunResult where
  output : List Char
  success : Bool
deriving DecidableEq

/-- The executor promise body (lines 192-231): create/attach/start the
container, race the 10 s timer against `container.wait()`, and in the
`finally` remove the temp directory and, if a proxy was provisioned,
tear it down. On the timeout path the container is killed, the sentinel
`\n[Timeout]` is appended to the captured text and the promise resolves
with `success:false`; on natural exit it resolves with `success:true`
whatever the exit code; any throw inside the `try` rejects the promise —
in every case the `finally` cleanup runs once. -/
def containerPhase (base : List REvent) (proxyName : Option String) (oc : COutcome) :
    Except String RunResult × List REvent :=
  let cleanup :=
    REvent.tmpRemove ::
      (match proxyName with
       | some n => cleanupNetworkScenario n
       | none => [])
  match oc with
  | COutcome.createFail msg =>
      (Except.error msg, base ++ [REvent.containerCreate] ++ cleanup)
  | COutcome.natural _ raw =>
      (Except.ok ⟨formatOutput raw, true⟩,
       base ++ [REvent.containerCreate, REvent.containerStart] ++ cleanup)
  | COutcome.timedOut raw =>
      (Except.ok ⟨formatOutput (raw ++ "\n[Timeout]".data), false⟩,
       base ++ [REvent.containerCreate, REvent.containerStart, REvent.containerKill] ++ cleanup)

/-- `runJob(job)` (lines 148-232). Program order:
1. `tmp.dirSync` creates the temp directory (before anything else);
2. `wrapUserCode` (pure);
3. language dispatch — an unrecognized language throws
   `Unsupported language`, escaping `runJob` before the executor
   promise and its `try/finally` exist, so no cleanup runs;
4. `fs.writeFile` — a rejection likewise escapes without cleanup;
5. if the scenario requests network faults, `setupNetworkScenario` —
   a rejection of `createProxy` (only the defensive delete attempt has
   happened) or of an `addToxic` (the proxy now exists; any toxics
   attached before the failing one are elided here — no claim inspects
   them) escapes without cleanup;
6. otherwise the executor promise runs (`containerPhase`). -/
def runJob (job : Job) (env : ExecEnv) : Except String RunResult × List REvent :=
  let ev0 : List REvent := [REvent.tmpCreate]
  let _userCode := wrapUserCode job.code job.scenario job.language
  if ¬ supportedLanguage job.language then
    (Except.error "Unsupported language", ev0)
  else if ¬ env.writeOk then
    (Except.error "write failed", ev0)
  else if networkTriggered job.scenario then
    let setup := setupNetworkScenario job.id job.scenario
    if ¬ env.createProxyOk then
      (Except.error "proxy create failed", ev0 ++ setup.1.take 1)
    else if ¬ env.toxicsOk then
      (Except.error "add toxic failed", ev0 ++ setup.1.take 2)
    else
      containerPhase (ev0 ++ setup.1) (some setup.2.1) env.outcome
  else
    containerPhase ev0 none env.outcome

/-- C1 (counterexample): a python job whose source-file write fails
exits `runJob` through the `ExecutionFailure` path with the temp
directory created but never removed — the `finally` cleanup only guards
the executor promise, which is never reached. -/
theorem runJob_write_failure_skips_cleanup :
    (runJob ⟨"j1", "python", "print(1)", emptyScenario⟩
        ⟨false, true, true, COutcome.natural 0 []⟩).1 = Except.error "write failed" ∧
    (runJob ⟨"j1", "python", "print(1)", emptyScenario⟩
        ⟨false, true, true, COutcome.natural 0 []⟩).2.count REvent.tmpCreate = 1 ∧
    (runJob ⟨"j1", "python", "print(1)", emptyScenario⟩
        ⟨false, true, true, COutcome.natural 0 []⟩).2.count REvent.tmpRemove = 0 :=
  ⟨rfl, by decide, by decide⟩

/-- C1 (amended): on every invocation that reaches the executor promise
(recognized language, successful source write, successful proxy
provisioning when one is requested), cleanup runs exactly once on every
exit path — temp-directory removal once, and exactly one proxy teardown
iff a proxy was provisioned — including the rejection path
(`ExecutionFailure`) and the timeout path. On the earlier throw paths
(unsupported language, write failure, provisioning failure) cleanup does
not run at all. -/
theorem runJob_cleanup_once (job : Job) (env : ExecEnv)
    (hl : supportedLanguage job.language = true)
    (hw : env.writeOk = true)
    (hp : networkTriggered job.scenario = true →
      env.createProxyOk = true ∧ env.toxicsOk = true) :
    (runJob job env).2.count REvent.tmpCreate = 1 ∧
    (runJob job env).2.count REvent.tmpRemove = 1 ∧
    (runJob job env).2.count (REvent.proxyDelete (proxyNameOf job.id)) =
      (if networkTriggered job.scenario then 1 else 0) := by
  unfold runJob containerPhase setupNetworkScenario cleanupNetworkScenario
  simp only [hl, hw, not_true_eq_false, if_false, Bool.true_eq_false, if_true]
  by_cases htr : networkTriggered job.scenario
  · obtain ⟨hc, ht⟩ := hp htr
    simp only [htr, hc, ht, if_true, not_true_eq_false, if_false]
    cases env.outcome <;>
      simp [List.count_append, List.count_cons, proxyNameOf] <;>
      split_ifs <;> simp
  · simp only [htr, if_false]
    cases env.outcome <;> simp [List.count_append, List.count_cons]

/-- C1 witness. -/
theorem runJob_cleanup_once_witness :
    (runJob ⟨"a", "python", "print(1)", ⟨3, 0, 0, none, 0, false, false, false⟩⟩
        ⟨true, true, true, COutcome.natural 0 []⟩).2.count REvent.tmpCreate = 1 ∧
    (runJob ⟨"a", "python", "print(1)", ⟨3, 0, 0, none, 0, false, false, false⟩⟩
        ⟨true, true, true, COutcome.natural 0 []⟩).2.count REvent.tmpRemove = 1 ∧
    (runJob ⟨"a", "python", "print(1)", ⟨3, 0, 0, none, 0, false, false, false⟩⟩
        ⟨true, true, true, COutcome.natural 0 []⟩).2.count
        (REvent.proxyDelete (proxyNameOf "a")) =
      (if networkTriggered ⟨3, 0, 0, none, 0, false, false, false⟩ then 1 else 0) :=
  runJob_cleanup_once _ _ (by decide) (by decide) (by decide)

/-- C3: whenever the 10-second wall-clock ceiling fires before natural
exit (and execution reached the executor promise), `runJob` kills the
container, appends the fixed sentinel `\n[Timeout]` to the captured
text, and RESOLVES with `\x7boutput, success:false\x7d` — an
`Except.ok`, never a rejection. -/
theorem runJob_timeout_resolves (job : Job) (env : ExecEnv) (raw : List Char)
    (hl : supportedLanguage job.language = true)
    (hw : env.writeOk = true)
    (hp : networkTriggered job.scenario = true →
      env.createProxyOk = true ∧ env.toxicsOk = true)
    (ho : env.outcome = COutcome.timedOut raw) :
    (runJob job env).1 =
      Except.ok ⟨formatOutput (raw ++ "\n[Timeout]".data), false⟩ ∧
    REvent.containerKill ∈ (runJob job env).2 := by
  unfold runJob containerPhase
  simp only [hl, hw, not_true_eq_false, if_false, ho]
  by_cases htr : networkTriggered job.scenario
  · obtain ⟨hc, ht⟩ := hp htr
    simp [htr, hc, ht]
  · simp [htr]

/-- C3 witness. -/
theorem runJob_timeout_resolves_witness :
    (runJob ⟨"b", "python", "while True: pass", emptyScenario⟩
        ⟨true, true, true, COutcome.timedOut "x".data⟩).1 =
      Except.ok ⟨formatOutput ("x".data ++ "\n[Timeout]".data), false⟩ ∧
    REvent.containerKill ∈
      (runJob ⟨"b", "python", "while True: pass", emptyScenario⟩
        ⟨true, true, true, COutcome.timedOut "x".data⟩).2 :=
  runJob_timeout_resolves _ _ _ (by decide) (by decide) (by decide) rfl

/-- C6 (counterexample): an unsupported-language job does fail with
`Unsupported language`, but the temp directory has already been created
when the failure is raised — resources are not all withheld. -/
theorem runJob_unsupported_tmpdir_created :
    (runJob ⟨"j2", "ruby", "puts 1", emptyScenario⟩
        ⟨true, true, true, COutcome.natural 0 []⟩).1 =
      Except.error "Unsupported language" ∧
    REvent.tmpCreate ∈
      (runJob ⟨"j2", "ruby", "puts 1", emptyScenario⟩
        ⟨true, true, true, COutcome.natural 0 []⟩).2 :=
  ⟨rfl, by decide⟩

/-- C6 (amended): an unrecognized language makes `runJob` throw
`Unsupported language` before the proxy is provisioned and before any
container exists — but after the temp directory has been created; the
whole resource trace is exactly the temp-directory creation (so the
directory is also never removed on this path). -/
theorem runJob_unsupported_language (job : Job) (env : ExecEnv)
    (h : supportedLanguage job.language = false) :
    (runJob job env).1 = Except.error "Unsupported language" ∧
    (runJob job env).2 = [REvent.tmpCreate] := by
  unfold runJob
  simp [h]

/-- C6 witness. -/
theorem runJob_unsupported_language_witness :
    (runJob ⟨"j3", "go", "fmt.Println(1)", emptyScenario⟩
        ⟨true, true, true, COutcome.natural 0 []⟩).1 =
      Except.error "Unsupported language" ∧
    (runJob ⟨"j3", "go", "fmt.Println(1)", emptyScenario⟩
        ⟨true, true, true, COutcome.natural 0 []⟩).2 = [REvent.tmpCreate] :=
  runJob_unsupported_language _ _ (by decide)

/-- C7: when the container exits naturally before the ceiling, `runJob`
resolves with `success:true` and the sanitized captured text — for every
exit code (the result expression does not mention it), including a
nonzero exit forced by `simulateCrash`. -/
theorem runJob_natural_success (job : Job) (env : ExecEnv) (ec : Nat) (raw : List Char)
    (hl : supportedLanguage job.language = true)
    (hw : env.writeOk = true)
    (hp : networkTriggered job.scenario = true →
      env.createProxyOk = true ∧ env.toxicsOk = true)
    (ho : env.outcome = COutcome.natural ec raw) :
    (runJob job env).1 = Except.ok ⟨formatOutput raw, true⟩ := by
  unfold runJob containerPhase
  simp only [hl, hw, not_true_eq_false, if_false, ho]
  by_cases htr : networkTriggered job.scenario
  · obtain ⟨hc, ht⟩ := hp htr
    simp [htr, hc, ht]
  · simp [htr]

/-- C7 witness: a crash-simulating job exiting with code 1 still
resolves with `success:true`. -/
theorem runJob_natural_success_witness :
    (runJob ⟨"c", "python", "print(2)", ⟨0, 0, 0, none, 0, true, false, false⟩⟩
        ⟨true, true, true, COutcome.natural 1 "2\n".data⟩).1 =
      Except.ok ⟨formatOutput "2\n".data, true⟩ :=
  runJob_natural_success _ _ 1 "2\n".data (by decide) (by decide) (by decide) rfl

/-- Projection of the toxic-attachment calls out of a resource trace. -/
def toxicOf : REvent → Option (ToxicType × Nat)
  | REvent.addToxic t v => some (t, v)
  | _ => none

/-- C9: (a) a proxy is created during `runJob` iff the scenario sets any
of `networkLatencyMs`, `bandwidthKbps`, `timeoutMs`, `upstream`; (b) the
toxics attached are exactly those requested, each present iff its field
is set independently of the others, in the fixed order latency,
bandwidth, timeout. -/
theorem runJob_network_provisioning (job : Job) (env : ExecEnv)
    (hl : supportedLanguage job.language = true)
    (hw : env.writeOk = true)
    (hc : env.createProxyOk = true)
    (ht : env.toxicsOk = true) :
    ((∃ n listen u, REvent.proxyCreate n listen u ∈ (runJob job env).2) ↔
      networkTriggered job.scenario = true) ∧
    (runJob job env).2.filterMap toxicOf =
      (if job.scenario.networkLatencyMs ≠ 0 then
        [(ToxicType.latency, job.scenario.networkLatencyMs)] else []) ++
      (if job.scenario.bandwidthKbps ≠ 0 then
        [(ToxicType.bandwidth, job.scenario.bandwidthKbps)] else []) ++
      (if job.scenario.timeoutMs ≠ 0 then
        [(ToxicType.timeoutT, job.scenario.timeoutMs)] else []) := by
  unfold runJob containerPhase setupNetworkScenario cleanupNetworkScenario
  simp only [hl, hw, hc, ht, not_true_eq_false, if_false]
  by_cases htr : networkTriggered job.scenario
  · simp only [htr, if_true]
    constructor
    · cases env.outcome <;>
        simp [toxicOf, List.filterMap_append] <;> split_ifs <;> simp [toxicOf]
    · cases env.outcome <;>
        simp [toxicOf, List.filterMap_append] <;> split_ifs <;> simp [toxicOf]
  · have h1 : job.scenario.networkLatencyMs = 0 := by
      by_contra h
      simp [networkTriggered, h] at htr
    have h2 : job.scenario.bandwidthKbps = 0 := by
      by_contra h
      simp [networkTriggered, h] at htr
    have h3 : job.scenario.timeoutMs = 0 := by
      by_contra h
      simp [networkTriggered, h] at htr
    simp only [htr, if_false, h1, h2, h3]
    constructor
    · cases env.outcome <;> simp [toxicOf]
    · cases env.outcome <;> simp [toxicOf, List.filterMap_append]

/-- C9 witness: latency and timeout requested, bandwidth not. -/
theorem runJob_network_provisioning_witness :
    ((∃ n listen u, REvent.proxyCreate n listen u ∈
        (runJob ⟨"d", "python", "print(1)", ⟨100, 0, 5000, none, 0, false, false, false⟩⟩
          ⟨true, true, true, COutcome.natural 0 []⟩).2) ↔
      networkTriggered ⟨100, 0, 5000, none, 0, false, false, false⟩ = true) ∧
    (runJob ⟨"d", "python", "print(1)", ⟨100, 0, 5000, none, 0, false, false, false⟩⟩
        ⟨true, true, true, COutcome.natural 0 []⟩).2.filterMap toxicOf =
      (if (100 : Nat) ≠ 0 then [(ToxicType.latency, (100 : Nat))] else []) ++
      (if (0 : Nat) ≠ 0 then [(ToxicType.bandwidth, (0 : Nat))] else []) ++
      (if (5000 : Nat) ≠ 0 then [(ToxicType.timeoutT, (5000 : Nat))] else []) :=
  runJob_network_provisioning _ _ (by decide) (by decide) (by decide) (by decide)

/-! ## Job lifecycle and registry (src/unnamed/part_000)

The status field of one job record, as mutated by the asynchronous
lifecycle flow of `POST /run` (lines 43-58) and by `POST /cancel/:jobId`
(lines 106-123). -/

inductive JStatus
  | queued
  | running
  | completed
  | failed
  | cancelled
deriving DecidableEq

/-- The mutations that can hit one job record's `status` field:
`start` and `finishOk`/`finishErr` are the three assignments of the
lifecycle flow (lines 44, 48, 53); `cancel` is the cancel route. -/
inductive JEvent
  | start
  | finishOk
  | finishErr
  | cancel
deriving DecidableEq

/-- One mutation applied to the current status. The lifecycle
assignments are unconditional (`jobs[jobId].status = ...`); the cancel
route assigns only when the status is `queued` or `running` and is
rejected with a 400 (leaving the record untouched) otherwise. -/
def statusStep (s : JStatus) : JEvent → JStatus
  | JEvent.start => JStatus.running
  | JEvent.finishOk => JStatus.completed
  | JEvent.finishErr => JStatus.failed
  | JEvent.cancel =>
      if s = JStatus.queued ∨ s = JStatus.running then JStatus.cancelled else s

/-- A status is terminal when no further transition is supposed to leave
it. -/
def isTerminal : JStatus → Bool
  | JStatus.completed => true
  | JStatus.failed => true
  | JStatus.cancelled => true
  | _ => false

/-- The event sequences one job record can actually see. The lifecycle
flow performs `start` and then exactly one of `finishOk`/`finishErr`, in
that order; the creation and the `start` assignment run in the same
synchronous block of the event loop (the async IIFE runs until its first
await inside the request handler), so no cancel can be observed before
`start`; cancel requests may interleave anywhere after. -/
def ValidTrace (t : List JEvent) : Prop :=
  ∃ c1 c2 f, (f = JEvent.finishOk ∨ f = JEvent.finishErr) ∧
    c1.all (fun e => e = JEvent.cancel) = true ∧
    c2.all (fun e => e = JEvent.cancel) = true ∧
    t = JEvent.start :: (c1 ++ f :: c2)

/-- C2 (counterexample): the interleaving start, cancel, finish is a
valid trace; after the cancel the record is in the terminal state
`cancelled`, and the still-running execution flow then overwrites it to
`completed` — a transition out of a terminal state. -/
theorem statusStep_exits_terminal :
    ValidTrace [JEvent.start, JEvent.cancel, JEvent.finishOk] ∧
    List.scanl statusStep JStatus.queued [JEvent.start, JEvent.cancel, JEvent.finishOk] =
      [JStatus.queued, JStatus.running, JStatus.cancelled, JStatus.completed] ∧
    isTerminal JStatus.cancelled = true ∧
    statusStep JStatus.cancelled JEvent.finishOk ≠ JStatus.cancelled :=
  ⟨⟨[JEvent.cancel], [], JEvent.finishOk, Or.inl rfl, rfl, rfl, rfl⟩,
   by decide, by decide, by decide⟩

/-- The transitions that actually occur: the claimed monotone ones, plus
the two transitions out of `cancelled` caused by the execution flow of a
cancelled job finishing, plus the no-op self-loops of rejected cancels. -/
def allowedPair : JStatus → JStatus → Bool
  | JStatus.queued, JStatus.running => true
  | JStatus.running, JStatus.completed => true
  | JStatus.running, JStatus.failed => true
  | JStatus.running, JStatus.cancelled => true
  | JStatus.cancelled, JStatus.completed => true
  | JStatus.cancelled, JStatus.failed => true
  | JStatus.cancelled, JStatus.cancelled => true
  | JStatus.completed, JStatus.completed => true
  | JStatus.failed, JStatus.failed => true
  | _, _ => false


theorem head_scanl_statusStep (a : JStatus) (l : List JEvent) :
    (List.scanl statusStep a l).head? = some a := by
  cases l <;> rfl

theorem chain_cancels_from (s : JStatus)
    (hstep : statusStep s JEvent.cancel = s) (hpair : allowedPair s s = true) :
    ∀ c : List JEvent, c.all (fun e => e = JEvent.cancel) = true →
      List.Chain' (fun a b => allowedPair a b = true) (List.scanl statusStep s c) := by
  intro c
  induction c with
  | nil => intro _; simp
  | cons e es ih =>
    intro hall
    simp only [List.all_cons, Bool.and_eq_true, decide_eq_true_eq] at hall
    obtain ⟨he, hes⟩ := hall
    subst he
    simp only [List.scanl, hstep]
    refine List.chain'_cons'.mpr ⟨?_, ih hes⟩
    intro y hy
    rw [head_scanl_statusStep] at hy
    cases hy
    exact hpair

theorem chain_from_active :
    ∀ (c1 : List JEvent) (s : JStatus), (s = JStatus.running ∨ s = JStatus.cancelled) →
      c1.all (fun e => e = JEvent.cancel) = true →
      ∀ f, (f = JEvent.finishOk ∨ f = JEvent.finishErr) →
      ∀ c2 : List JEvent, c2.all (fun e => e = JEvent.cancel) = true →
      List.Chain' (fun a b => allowedPair a b = true)
        (List.scanl statusStep s (c1 ++ f :: c2)) := by
  intro c1
  induction c1 with
  | nil =>
    intro s hs _ f hf c2 hc2
    simp only [List.nil_append, List.scanl]
    refine List.chain'_cons'.mpr ⟨?_, ?_⟩
    · intro y hy
      rw [head_scanl_statusStep] at hy
      cases hy
      rcases hs with h | h <;> rcases hf with h2 | h2 <;> subst h <;> subst h2 <;> rfl
    · rcases hf with h2 | h2 <;> subst h2
      · exact chain_cancels_from JStatus.completed rfl rfl c2 hc2
      · exact chain_cancels_from JStatus.failed rfl rfl c2 hc2
  | cons e es ih =>
    intro s hs hall f hf c2 hc2
    simp only [List.all_cons, Bool.and_eq_true, decide_eq_true_eq] at hall
    obtain ⟨he, hes⟩ := hall
    subst he
    have hstep : statusStep s JEvent.cancel = JStatus.cancelled := by
      rcases hs with h | h <;> subst h <;> rfl
    simp only [List.cons_append, List.scanl, hstep]
    refine List.chain'_cons'.mpr ⟨?_, ih JStatus.cancelled (Or.inr rfl) hes f hf c2 hc2⟩
    intro y hy
    rw [head_scanl_statusStep] at hy
    cases hy
    rcases hs with h | h <;> subst h <;> rfl

/-- C2 (amended): along every interleaving a job record can actually
see, each status transition either is one of the claimed monotone ones
(queued→running, running→completed/failed, running→cancelled) or is a
no-op self-loop of a rejected cancel — except that a job cancelled while
its execution flow is still running is later overwritten
cancelled→completed or cancelled→failed when that flow finishes; these
two exits from `cancelled` are the only transitions out of a terminal
state (`completed` and `failed` are never exited). -/
theorem statusStep_monotone_amended (t : List JEvent) (h : ValidTrace t) :
    List.Chain' (fun a b => allowedPair a b = true)
      (List.scanl statusStep JStatus.queued t) := by
  obtain ⟨c1, c2, f, hf, hc1, hc2, ht⟩ := h
  subst ht
  simp only [List.scanl]
  refine List.chain'_cons'.mpr ⟨?_, ?_⟩
  · intro y hy
    rw [head_scanl_statusStep] at hy
    cases hy
    rfl
  · exact chain_from_active c1 JStatus.running (Or.inl rfl) hc1 f hf c2 hc2

/-- C2 witness. -/
theorem statusStep_monotone_amended_witness :
    List.Chain' (fun a b => allowedPair a b = true)
      (List.scanl statusStep JStatus.queued
        [JEvent.start, JEvent.cancel, JEvent.cancel, JEvent.finishErr, JEvent.cancel]) :=
  statusStep_monotone_amended _
    ⟨[JEvent.cancel, JEvent.cancel], [JEvent.cancel], JEvent.finishErr,
      Or.inr rfl, rfl, rfl, rfl⟩

/-! ## Job registry sweep (src/unnamed/part_000 lines 142-151) -/

/-- The fields of a job record the sweep reads. Timestamps are
millisecond epoch values (`Date.now()` / `getTime()`), as integers. -/
structure JobRecord where
  status : JStatus
  completedAt : Option Int
deriving DecidableEq

/-- The retention window `3600 * 1000` ms used in the sweep's age
check. -/
def retentionMs : Int := 3600 * 1000

/-- The interval passed to `setInterval` for the sweep. -/
def sweepIntervalMs : Int := 3600 * 1000

/-- One run of the periodic cleanup: delete every record with
`job.completedAt && now - completedAt > 3600*1000`; the in-memory job
map is modelled as an association list and deletion as filtering. -/
def sweepJobs (now : Int) (jobs : List (String × JobRecord)) :
    List (String × JobRecord) :=
  jobs.filter (fun p =>
    !(match p.2.completedAt with
      | some t => now - t > retentionMs
      | none => false))

/-- C8: the sweep runs once per retention window (interval = window) and
deletes exactly those records whose `completedAt` predates now minus the
retention window; a record with no `completedAt` survives every sweep. -/
theorem sweepJobs_spec :
    sweepIntervalMs = retentionMs ∧
    ∀ (now : Int) (jobs : List (String × JobRecord)) (p : String × JobRecord),
      p ∈ sweepJobs now jobs ↔
        p ∈ jobs ∧ ¬ ∃ t, p.2.completedAt = some t ∧ t < now - retentionMs := by
  refine ⟨rfl, ?_⟩
  intro now jobs p
  simp only [sweepJobs, List.mem_filter]
  constructor
  · rintro ⟨hm, hb⟩
    refine ⟨hm, ?_⟩
    rintro ⟨t, ht, hlt⟩
    rw [ht] at hb
    simp at hb
    omega
  · rintro ⟨hm, hne⟩
    refine ⟨hm, ?_⟩
    cases hca : p.2.completedAt with
    | none => simp
    | some t =>
      simp only [Bool.not_eq_eq_eq_not, Bool.not_true, decide_eq_false_iff_not, not_lt]
      have : ¬ t < now - retentionMs := fun hlt => hne ⟨t, hca, hlt⟩
      simp
      omega

/-! ## C4: idempotence of the output sanitizer -/

/-- C4 (counterexample): the sanitizer is not idempotent. On the text
`[Timeout]` the first pass prepends the timeout notice; the second pass
still sees the sentinel and prepends the notice again, so the output
changes. -/
theorem formatOutput_not_idempotent :
    formatOutput (formatOutput "[Timeout]".data) ≠ formatOutput "[Timeout]".data := by
  decide

/-- A `matchToNl` remainder is drawn from the input. -/
theorem mem_of_mem_matchToNl {c : Char} :
    ∀ l r : List Char, matchToNl l = some r → c ∈ r → c ∈ l := by
  intro l
  induction l with
  | nil => intro r h; simp [matchToNl] at h
  | cons a as ih =>
    intro r h hc
    simp only [matchToNl] at h
    split at h
    · cases h; exact List.mem_cons_of_mem _ hc
    · split at h
      · cases h
      · exact List.mem_cons_of_mem _ (ih _ h hc)

/-- Characters of `stripPipGo fuel l` come from `l`. -/
theorem mem_of_mem_stripPipGo {c : Char} :
    ∀ (fuel : Nat) (l : List Char), c ∈ stripPipGo fuel l → c ∈ l := by
  intro fuel
  induction fuel with
  | zero =>
    intro l h
    cases l with
    | nil => simpa [stripPipGo] using h
    | cons a as => simpa [stripPipGo] using h
  | succ n ih =>
    intro l h
    cases l with
    | nil => simpa [stripPipGo] using h
    | cons a as =>
      rw [stripPipGo] at h
      split at h
      · split at h
        · next rest hm =>
          exact List.mem_of_mem_drop (mem_of_mem_matchToNl _ _ hm (ih _ h))
        · rcases List.mem_cons.mp h with h | h
          · exact h ▸ List.mem_cons_self _ _
          · exact List.mem_cons_of_mem _ (ih _ h)
      · rcases List.mem_cons.mp h with h | h
        · exact h ▸ List.mem_cons_self _ _
        · exact List.mem_cons_of_mem _ (ih _ h)

/-- Characters of `stripPip l` come from `l`. -/
theorem mem_of_mem_stripPip {c : Char} (l : List Char) :
    c ∈ stripPip l → c ∈ l :=
  mem_of_mem_stripPipGo l.length l

/-- Characters of every line of `splitLines l` come from `l`. -/
theorem mem_of_mem_splitLines {c : Char} :
    ∀ (l : List Char) (line : List Char), line ∈ splitLines l → c ∈ line → c ∈ l := by
  intro l
  induction l with
  | nil =>
    intro line hline hc
    simp [splitLines] at hline
    subst hline
    simp at hc
  | cons a as ih =>
    intro line hline hc
    simp only [splitLines] at hline
    split at hline
    · rcases List.mem_cons.mp hline with h | h
      · subst h; simp at hc
      · exact List.mem_cons_of_mem _ (ih _ h hc)
    · split at hline
      · next hnil =>
        have : line = [a] := by simpa using hline
        subst this
        have : c = a := by simpa using hc
        exact this ▸ List.mem_cons_self _ _
      · next l0 ls hsplit =>
        rcases List.mem_cons.mp hline with h | h
        · subst h
          rcases List.mem_cons.mp hc with h | h
          · exact h ▸ List.mem_cons_self _ _
          · exact List.mem_cons_of_mem _ (ih _ (hsplit ▸ List.mem_cons_self _ _) h)
        · exact List.mem_cons_of_mem _ (ih _ (hsplit ▸ List.mem_cons_of_mem _ h) hc)

/-- A `lineMatch` result is a suffix of the line. -/
theorem mem_of_mem_lineMatch {c : Char} :
    ∀ line m : List Char, lineMatch line = some m → c ∈ m → c ∈ line := by
  intro line
  induction line with
  | nil => intro m hm; simp [lineMatch, infoPrefix] at hm
  | cons a as ih =>
    intro m hm hc
    simp only [lineMatch] at hm
    split at hm
    · cases hm; exact hc
    · exact List.mem_cons_of_mem _ (ih _ hm hc)

/-- Characters of `joinNl parts` come from the parts or are `'\n'`. -/
theorem mem_of_mem_joinNl {c : Char} :
    ∀ parts : List (List Char), c ∈ joinNl parts →
      (∃ p ∈ parts, c ∈ p) ∨ c = '\n' := by
  intro parts
  induction parts with
  | nil => intro h; simp [joinNl] at h
  | cons p ps ih =>
    intro h
    cases ps with
    | nil =>
      simp only [joinNl] at h
      exact Or.inl ⟨p, List.mem_cons_self _ _, h⟩
    | cons q qs =>
      simp only [joinNl] at h
      rcases List.mem_append.mp h with h | h
      · exact Or.inl ⟨p, List.mem_cons_self _ _, h⟩
      · rcases List.mem_cons.mp h with h | h
        · exact Or.inr h
        · rcases ih h with ⟨r, hr, hcr⟩ | h
          · exact Or.inl ⟨r, List.mem_cons_of_mem _ hr, hcr⟩
          · exact Or.inr h

/-- Characters of `collapseLogs l` come from `l` or are `'\n'`. -/
theorem mem_of_mem_collapseLogs {c : Char} (l : List Char) :
    c ∈ collapseLogs l → c ∈ l ∨ c = '\n' := by
  intro h
  rw [collapseLogs] at h
  split at h
  · exact Or.inl h
  · rcases mem_of_mem_joinNl _ h with ⟨p, hp, hcp⟩ | h
    · rcases List.mem_map.mp hp with ⟨line, hline, hdrop⟩
      rcases List.mem_filterMap.mp hline with ⟨line0, hline0, hmatch⟩
      subst hdrop
      exact Or.inl (mem_of_mem_splitLines _ _ hline0
        (mem_of_mem_lineMatch _ _ hmatch (List.mem_of_mem_drop hcp)))
    · exact Or.inr h

/-- Characters of `jsTrim l` come from `l`. -/
theorem mem_of_mem_jsTrim {c : Char} (l : List Char) : c ∈ jsTrim l → c ∈ l := by
  intro h
  unfold jsTrim trimR trimL at h
  rw [List.mem_reverse] at h
  have h1 := (List.dropWhile_suffix isJsSpace).subset h
  rw [List.mem_reverse] at h1
  exact (List.dropWhile_suffix isJsSpace).subset h1

/-- Characters of a `takeWhile` come from the list. -/
theorem mem_of_mem_takeWhileCh {c : Char} {p : Char → Bool} {l : List Char}
    (h : c ∈ List.takeWhile p l) : c ∈ l := by
  have h2 := List.takeWhile_append_dropWhile (p := p) (l := l)
  rw [← h2]
  exact List.mem_append.mpr (Or.inl h)

/-- The fixed notice text has no control characters. -/
theorem ctrlFree_timeoutNotice : ∀ c ∈ timeoutNotice, isCtrlChar c = false := by
  decide

/-- The fixed redaction text has no control characters. -/
theorem ctrlFree_ipRepl : ∀ c ∈ ipRepl, isCtrlChar c = false := by
  decide

/-- No control character survives `removeCtrl`. -/
theorem ctrlFree_removeCtrl {c : Char} (l : List Char) :
    c ∈ removeCtrl l → isCtrlChar c = false := by
  intro h
  have := List.of_mem_filter h
  simpa using this

/-- The sanitized text never contains the stripped control characters:
step 1a removes them and no later step introduces one. -/
theorem ctrlFree_formatOutput {c : Char} (x : List Char) :
    c ∈ formatOutput x → isCtrlChar c = false := by
  intro h
  unfold formatOutput at h
  have h1 := mem_of_mem_jsTrim _ h
  have h2 : c ∈ addTimeoutNotice (collapseLogs (stripPip (removeCtrl x))) ∨ c ∈ ipRepl := by
    unfold fixJson at h1
    split at h1
    · split at h1
      · rcases List.mem_append.mp h1 with h1 | h1
        · exact Or.inl (mem_of_mem_takeWhileCh h1)
        · exact Or.inr h1
      · exact Or.inl h1
    · exact Or.inl h1
  rcases h2 with h2 | h2
  · have h3 : c ∈ collapseLogs (stripPip (removeCtrl x)) ∨ c ∈ timeoutNotice := by
      unfold addTimeoutNotice at h2
      split at h2
      · rcases List.mem_append.mp h2 with h2 | h2
        · exact Or.inr h2
        · exact Or.inl h2
      · exact Or.inl h2
    rcases h3 with h3 | h3
    · rcases mem_of_mem_collapseLogs _ h3 with h4 | h4
      · exact ctrlFree_removeCtrl _ (mem_of_mem_stripPip _ h4)
      · subst h4; decide
    · exact ctrlFree_timeoutNotice _ h3
  · exact ctrlFree_ipRepl _ h2

/-- Step 1 applied to already-sanitized text is a no-op as far as the
control characters go. -/
theorem removeCtrl_formatOutput (x : List Char) :
    removeCtrl (formatOutput x) = formatOutput x := by
  unfold removeCtrl
  rw [List.filter_eq_self]
  intro a ha
  simp [ctrlFree_formatOutput x ha]

/-- A prefix occurrence makes `containsSub` true. -/
theorem containsSub_of_startsWith {p l : List Char} (h : p <+: l) :
    containsSub p l = true := by
  cases l with
  | nil =>
    have : p = [] := List.prefix_nil.mp h
    subst this
    rfl
  | cons c cs =>
    rw [containsSub, List.isPrefixOf_iff_prefix.mpr h]
    rfl

/-- `containsSub` is stable under prepending a character. -/
theorem containsSub_cons {p l : List Char} (c : Char) (h : containsSub p l = true) :
    containsSub p (c :: l) = true := by
  rw [containsSub, h, Bool.or_true]

/-- `containsSub` is stable under prepending any list. -/
theorem containsSub_append_left {p t : List Char} (s : List Char)
    (h : containsSub p t = true) : containsSub p (s ++ t) = true := by
  induction s with
  | nil => exact h
  | cons c cs ih => exact containsSub_cons c ih

/-- An explicit occurrence decomposition makes `containsSub` true. -/
theorem containsSub_of_decomp {p l : List Char} (s t : List Char)
    (h : l = s ++ p ++ t) : containsSub p l = true := by
  subst h
  rw [List.append_assoc]
  exact containsSub_append_left s (containsSub_of_startsWith ⟨t, rfl⟩)

/-- `containsSub` true yields an explicit occurrence decomposition. -/
theorem containsSub_decomp {p : List Char} :
    ∀ l : List Char, containsSub p l = true → ∃ s t, l = s ++ p ++ t := by
  intro l
  induction l with
  | nil =>
    intro h
    rw [containsSub] at h
    have : p = [] := by
      cases p with
      | nil => rfl
      | cons a as => simp [List.isPrefixOf] at h
    subst this
    exact ⟨[], [], rfl⟩
  | cons c cs ih =>
    intro h
    rw [containsSub, Bool.or_eq_true] at h
    rcases h with h | h
    · obtain ⟨t, ht⟩ := List.isPrefixOf_iff_prefix.mp h
      exact ⟨[], t, by simp [← ht]⟩
    · obtain ⟨s, t, hst⟩ := ih h
      exact ⟨c :: s, t, by simp [hst]⟩

/-- An occurrence within a left part lifts to the appended list. -/
theorem containsSub_append_right {p a : List Char} (b : List Char)
    (h : containsSub p a = true) : containsSub p (a ++ b) = true := by
  obtain ⟨s, t, hst⟩ := containsSub_decomp a h
  exact containsSub_of_decomp s (t ++ b) (by simp [hst])

/-- A successful `lineMatch` means the line contains the log prefix. -/
theorem lineMatch_some_contains :
    ∀ line m : List Char, lineMatch line = some m →
      containsSub infoPrefix line = true := by
  intro line
  induction line with
  | nil => intro m h; simp [lineMatch, infoPrefix] at h
  | cons a as ih =>
    intro m h
    rw [lineMatch] at h
    split at h
    · next hpre => rw [containsSub, hpre]; rfl
    · exact containsSub_cons a (ih _ h)

/-- The head line of `splitLines` is a prefix of the input. -/
theorem splitLines_head_init :
    ∀ (cs l0 : List Char) (ls : List (List Char)),
      splitLines cs = l0 :: ls → ∃ t, cs = l0 ++ t := by
  intro cs
  induction cs with
  | nil =>
    intro l0 ls h
    rw [splitLines] at h
    cases h
    exact ⟨[], rfl⟩
  | cons a as ih =>
    intro l0 ls h
    rw [splitLines] at h
    split at h
    · cases h
      exact ⟨a :: as, rfl⟩
    · cases hsp : splitLines as with
      | nil =>
        rw [hsp] at h
        cases h
        exact ⟨as, rfl⟩
      | cons m ms =>
        rw [hsp] at h
        cases h
        obtain ⟨t, ht⟩ := ih _ _ hsp
        exact ⟨t, by simp [ht]⟩

/-- Every line of `splitLines l` occurs inside `l`. -/
theorem splitLines_decomp :
    ∀ (l line : List Char), line ∈ splitLines l → ∃ s t, l = s ++ line ++ t := by
  intro l
  induction l with
  | nil =>
    intro line h
    rw [splitLines] at h
    have : line = [] := by simpa using h
    subst this
    exact ⟨[], [], rfl⟩
  | cons a as ih =>
    intro line h
    rw [splitLines] at h
    split at h
    · rcases List.mem_cons.mp h with h | h
      · subst h
        exact ⟨[], a :: as, rfl⟩
      · obtain ⟨s, t, hst⟩ := ih _ h
        exact ⟨a :: s, t, by simp [hst]⟩
    · cases hsp : splitLines as with
      | nil =>
        rw [hsp] at h
        have : line = [a] := by simpa using h
        subst this
        exact ⟨[], as, rfl⟩
      | cons m ms =>
        rw [hsp] at h
        rcases List.mem_cons.mp h with h | h
        · subst h
          obtain ⟨t, ht⟩ := splitLines_head_init as m ms hsp
          exact ⟨[], t, by simp [ht]⟩
        · obtain ⟨s, t, hst⟩ := ih _ (hsp ▸ List.mem_cons_of_mem _ h)
          exact ⟨a :: s, t, by simp [hst]⟩

/-- Step 2 is a no-op on text that nowhere contains the log prefix. -/
theorem collapseLogs_of_not_contains {l : List Char}
    (h : containsSub infoPrefix l = false) : collapseLogs l = l := by
  rw [collapseLogs, if_pos]
  rw [List.filterMap_eq_nil]
  intro line hline
  cases hm : lineMatch line with
  | none => rfl
  | some m =>
    exfalso
    have h1 := lineMatch_some_contains line m hm
    obtain ⟨s1, t1, h2⟩ := containsSub_decomp line h1
    obtain ⟨s, t, hst⟩ := splitLines_decomp l line hline
    have : containsSub infoPrefix l = true :=
      containsSub_of_decomp (s ++ s1) (t1 ++ t) (by simp [hst, h2])
    rw [this] at h
    cases h

/-- Step 3 is a no-op on text without the timeout sentinel. -/
theorem addTimeoutNotice_of_not_contains {l : List Char}
    (h : containsSub timeoutMark l = false) : addTimeoutNotice l = l := by
  rw [addTimeoutNotice, h]
  rfl

/-- Right-trim decomposition: what is cut off is all whitespace. -/
theorem trimR_decomp (u : List Char) :
    ∃ suf, u = trimR u ++ suf ∧ ∀ c ∈ suf, isJsSpace c = true := by
  refine ⟨(u.reverse.takeWhile isJsSpace).reverse, ?_, ?_⟩
  · conv_lhs => rw [← List.reverse_reverse u,
      ← List.takeWhile_append_dropWhile (p := isJsSpace) (l := u.reverse)]
    rw [List.reverse_append]
    rfl
  · intro c hc
    exact List.mem_takeWhile_imp (List.mem_reverse.mp hc)

/-- Full-trim decomposition: `l` is whitespace, then `jsTrim l`, then
whitespace. -/
theorem jsTrim_decomp (l : List Char) :
    ∃ pre suf, l = pre ++ jsTrim l ++ suf ∧
      (∀ c ∈ pre, isJsSpace c = true) ∧ ∀ c ∈ suf, isJsSpace c = true := by
  obtain ⟨suf, hs, hws⟩ := trimR_decomp (trimL l)
  refine ⟨l.takeWhile isJsSpace, suf, ?_, ?_, hws⟩
  · conv_lhs => rw [← List.takeWhile_append_dropWhile (p := isJsSpace) (l := l)]
    have h1 : List.dropWhile isJsSpace l = jsTrim l ++ suf := hs
    rw [h1, List.append_assoc]
  · intro c hc
    exact List.mem_takeWhile_imp hc

/-- A non-whitespace character survives `.trim()`. -/
theorem mem_jsTrim_of_not_ws {c : Char} {l : List Char}
    (hns : isJsSpace c = false) (h : c ∈ l) : c ∈ jsTrim l := by
  obtain ⟨pre, suf, hd, hp, hsuf⟩ := jsTrim_decomp l
  rw [hd] at h
  rcases List.mem_append.mp h with h | h
  · rcases List.mem_append.mp h with h | h
    · rw [hp c h] at hns; cases hns
    · exact h
  · rw [hsuf c h] at hns; cases hns

/-- Right trim is idempotent. -/
theorem trimR_idem (u : List Char) : trimR (trimR u) = trimR u := by
  unfold trimR
  rw [List.reverse_reverse, List.dropWhile_idempotent]

/-- A left-trimmed list stays left-trimmed after right trimming. -/
theorem trimL_trimR_of_trimL (u : List Char) (h : trimL u = u) :
    trimL (trimR u) = trimR u := by
  cases htr : trimR u with
  | nil => rfl
  | cons a as =>
    obtain ⟨suf, hdecomp, _⟩ := trimR_decomp u
    rw [htr] at hdecomp
    have hws : isJsSpace a = false := by
      by_contra hcon
      rw [Bool.not_eq_false] at hcon
      rw [hdecomp, trimL, List.cons_append, List.dropWhile_cons, if_pos hcon] at h
      have h1 : (List.dropWhile isJsSpace (as ++ suf)).length ≤ (as ++ suf).length :=
        (List.dropWhile_suffix isJsSpace).length_le
      rw [h] at h1
      simp at h1
    rw [trimL, List.dropWhile_cons, if_neg (by simp [hws])]

/-- `.trim()` is idempotent. -/
theorem jsTrim_idem (l : List Char) : jsTrim (jsTrim l) = jsTrim l := by
  show trimR (trimL (trimR (trimL l))) = trimR (trimL l)
  rw [trimL_trimR_of_trimL (trimL l) (List.dropWhile_idempotent _ _), trimR_idem]

/-- Dropping by a weaker predicate first does not change a `dropWhile`
by a stronger one. -/
theorem dropWhile_dropWhile_of_imp {p q : Char → Bool}
    (himp : ∀ a, q a = true → p a = true) :
    ∀ l : List Char, List.dropWhile p (List.dropWhile q l) = List.dropWhile p l := by
  intro l
  induction l with
  | nil => rfl
  | cons c cs ih =>
    by_cases hq : q c = true
    · rw [List.dropWhile_cons, if_pos hq, List.dropWhile_cons, if_pos (himp c hq), ih]
    · rw [List.dropWhile_cons, if_neg hq]

/-- `dropWhile` over an append stops inside the left part when that part
has a failing element. -/
theorem dropWhile_append_of_mem {p : Char → Bool} :
    ∀ x y : List Char, (∃ a ∈ x, p a = false) →
      List.dropWhile p (x ++ y) = List.dropWhile p x ++ y := by
  intro x
  induction x with
  | nil =>
    intro y h
    obtain ⟨a, ha, _⟩ := h
    cases ha
  | cons c cs ih =>
    intro y h
    by_cases hp : p c = true
    · have h2 : ∃ a ∈ cs, p a = false := by
        obtain ⟨a, ha, hpa⟩ := h
        rcases List.mem_cons.mp ha with rfl | ha
        · rw [hp] at hpa; cases hpa
        · exact ⟨a, ha, hpa⟩
      rw [List.cons_append, List.dropWhile_cons, if_pos hp,
        List.dropWhile_cons, if_pos hp, ih y h2]
    · rw [List.cons_append, List.dropWhile_cons, if_neg hp,
        List.dropWhile_cons, if_neg hp, List.cons_append]

/-- Bridge from the `Bool`-valued `List.contains` to membership. -/
theorem contains_eq_mem (l : List Char) (c : Char) : l.contains c = true ↔ c ∈ l :=
  List.elem_iff

/-- Step 4 never has anything left to do after one full pass: either it
fired (the output now has a closing brace), or its guard already failed
and trimming preserves that failure. -/
theorem fixJson_jsTrim_fixJson (z : List Char) :
    fixJson (jsTrim (fixJson z)) = jsTrim (fixJson z) := by
  by_cases hcond : (z.contains '\x7b' && !(z.contains '\x7d')) = true
  · by_cases horig : containsSub originKey (z.dropWhile (fun c => c ≠ '\x7b')) = true
    · have hfz : fixJson z = z.takeWhile (fun c => c ≠ '\x7b') ++ ipRepl := by
        rw [fixJson, if_pos hcond, if_pos horig]
      rw [hfz]
      have hmem : '\x7d' ∈ z.takeWhile (fun c => c ≠ '\x7b') ++ ipRepl :=
        List.mem_append.mpr (Or.inr (by decide))
      have hmem2 := mem_jsTrim_of_not_ws (by decide) hmem
      have hc : (jsTrim (z.takeWhile (fun c => c ≠ '\x7b') ++ ipRepl)).contains '\x7d'
          = true := List.elem_iff.mpr hmem2
      rw [fixJson, if_neg (by rw [hc]; simp)]
    · have hfz : fixJson z = z := by
        rw [fixJson, if_pos hcond, if_neg horig]
      rw [hfz]
      have hbo : z.contains '\x7b' = true := ((Bool.and_eq_true _ _).mp hcond).1
      have hbc : z.contains '\x7d' = false := by
        have h2 := ((Bool.and_eq_true _ _).mp hcond).2
        simpa using h2
      have hbc2 : (jsTrim z).contains '\x7d' = false := by
        by_contra hcc
        rw [Bool.not_eq_false] at hcc
        have hm := mem_of_mem_jsTrim z (List.elem_iff.mp hcc)
        simp at hbc
        exact hbc hm
      by_cases hbo2 : (jsTrim z).contains '\x7b' = true
      · obtain ⟨suf, hdec, hwssuf⟩ := trimR_decomp (trimL z)
        have e1 : List.dropWhile (fun c => (c ≠ '\x7b' : Bool)) (trimL z)
            = List.dropWhile (fun c => (c ≠ '\x7b' : Bool)) z := by
          apply dropWhile_dropWhile_of_imp
          intro a ha
          simp only [decide_eq_true_eq]
          intro hq
          subst hq
          exact absurd ha (by decide)
        have hdec2 : trimL z = jsTrim z ++ suf := hdec
        have e2 : List.dropWhile (fun c => (c ≠ '\x7b' : Bool)) (jsTrim z ++ suf)
            = List.dropWhile (fun c => (c ≠ '\x7b' : Bool)) (jsTrim z) ++ suf := by
          apply dropWhile_append_of_mem
          exact ⟨'\x7b', List.elem_iff.mp hbo2, by simp⟩
        have e3 : List.dropWhile (fun c => (c ≠ '\x7b' : Bool)) z
            = List.dropWhile (fun c => (c ≠ '\x7b' : Bool)) (jsTrim z) ++ suf := by
          rw [← e1, hdec2, e2]
        have horig2 : containsSub originKey
            ((jsTrim z).dropWhile (fun c => (c ≠ '\x7b' : Bool))) = false := by
          by_contra hcc
          rw [Bool.not_eq_false] at hcc
          have h4 := containsSub_append_right suf hcc
          rw [← e3] at h4
          exact horig h4
        rw [fixJson, if_pos (by rw [hbo2, hbc2]; rfl), if_neg (by rw [horig2]; simp)]
      · rw [Bool.not_eq_true] at hbo2
        rw [fixJson, if_neg (by rw [hbo2]; simp)]
  · have hfz : fixJson z = z := by
      rw [fixJson, if_neg hcond]
    rw [hfz]
    by_cases hbo : z.contains '\x7b' = true
    · have hbc : z.contains '\x7d' = true := by
        by_contra hx
        rw [Bool.not_eq_true] at hx
        exact hcond (by rw [hbo, hx]; rfl)
      have hm2 : '\x7d' ∈ jsTrim z := mem_jsTrim_of_not_ws (by decide) (List.elem_iff.mp hbc)
      have hc2 : (jsTrim z).contains '\x7d' = true := (contains_eq_mem _ _).mpr hm2
      rw [fixJson, if_neg (by rw [hc2]; simp)]
    · rw [Bool.not_eq_true] at hbo
      have h5 : (jsTrim z).contains '\x7b' = false := by
        by_contra hcc
        rw [Bool.not_eq_false] at hcc
        have hm := mem_of_mem_jsTrim z (List.elem_iff.mp hcc)
        simp at hbo
        exact hbo hm
      rw [fixJson, if_neg (by rw [h5]; simp)]

/-- C4 (amended): the sanitizer is idempotent exactly on those inputs
whose sanitized form triggers none of the first three steps again: no
pip-warning match (a first pass can splice two fragments into a fresh
match), no remaining `INFO:root:` (a collapsed log line can still
contain the prefix and be collapsed again), and no timeout sentinel (the
notice is prepended again on every pass). The control-character strip,
the truncated-JSON redaction and the trim are always no-ops on a
sanitized text; the claimed unconditional idempotence fails. -/
theorem formatOutput_idem_of_clean (x : List Char)
    (h1 : stripPip (formatOutput x) = formatOutput x)
    (h2 : containsSub infoPrefix (formatOutput x) = false)
    (h3 : containsSub timeoutMark (formatOutput x) = false) :
    formatOutput (formatOutput x) = formatOutput x := by
  conv_lhs => rw [formatOutput]
  rw [removeCtrl_formatOutput, h1, collapseLogs_of_not_contains h2,
    addTimeoutNotice_of_not_contains h3]
  rw [formatOutput]
  rw [fixJson_jsTrim_fixJson, jsTrim_idem]

/-- C4 witness. -/
theorem formatOutput_idem_of_clean_witness :
    formatOutput (formatOutput "hello world".data) = formatOutput "hello world".data :=
  formatOutput_idem_of_clean "hello world".data (by decide) (by decide) (by decide)
